import Mathlib

/-!
# Verification of the `projections` geometry core

Shallow embedding of `src/projections.py`: 3-vector primitives
(`mult_vec`, `sum_vec`, `normalize_vec`), the basis-decomposition solver
(`decompose`), the `Plane` abstraction (`project_vector`, `project_through`,
`get_vectors`) and the `View` abstraction (`project_point`, `move_point`).

The Python code computes with floats; the embedding uses exact arithmetic:
`ℚ` for all the rational-function pipeline (everything except basis
normalization) and `ℝ` for `normalize_vec`/`get_vectors`, whose square
roots are irrational.  Python raises `ZeroDivisionError` on division by
zero (also for floats), so every source operation that can divide by zero
is embedded as an `Option`-valued function returning `none` exactly when
the Python raises; `decompose`, whose `try/except` catches the error and
substitutes `(0, 0)`, is total.
-/

namespace Projections

/-- A 3-component vector, the embedding of the source's `Vector3f` tuples
(`v[0]`, `v[1]`, `v[2]` become `x`, `y`, `z`). -/
structure Vec3 (α : Type) where
  x : α
  y : α
  z : α
deriving DecidableEq, Repr

/-- `mult_vec(v, m)`: component-wise scalar multiple. -/
def mult_vec {α : Type} [Field α] (v : Vec3 α) (m : α) : Vec3 α :=
  ⟨v.x * m, v.y * m, v.z * m⟩

/-- `sum_vec(l)`: component-wise sum of a list of vectors.  The source uses
`math.fsum`, whose documented semantics is the exact sum of the inputs, so
the embedding is the exact component-wise sum. -/
def sum_vec {α : Type} [Field α] (l : List (Vec3 α)) : Vec3 α :=
  ⟨(l.map Vec3.x).sum, (l.map Vec3.y).sum, (l.map Vec3.z).sum⟩

/-- Dot product (used only to state claims; the source inlines it). -/
def dot {α : Type} [Field α] (u v : Vec3 α) : α :=
  u.x * v.x + u.y * v.y + u.z * v.z

/-- Cross product (used to state claims: `cross u v ≠ 0` is the standard
formalization of "u and v are not collinear/parallel"; the source inlines
the same three components in `Plane.get_vectors`). -/
def cross {α : Type} [Field α] (u v : Vec3 α) : Vec3 α :=
  ⟨u.y * v.z - u.z * v.y, u.z * v.x - u.x * v.z, u.x * v.y - u.y * v.x⟩

/-- `decompose(v, (a, b))`: solve `v = m*a + n*b` from the x/y components.
The source computes `n = (v.x*a.y - v.y*a.x)/(b.x*a.y - b.y*a.x)` and
`m = (v.x - n*b.x)/a.x` inside a `try`, and returns `(0, 0)` whenever
either division raises `ZeroDivisionError`; the whole `try` block is
abandoned on the exception, so a zero `a.x` discards the already-computed
`n` as well. -/
def decompose {α : Type} [Field α] [DecidableEq α]
    (v : Vec3 α) (basis : Vec3 α × Vec3 α) : α × α :=
  let a := basis.1
  let b := basis.2
  if b.x * a.y - b.y * a.x = 0 then (0, 0)
  else
    let n := (v.x * a.y - v.y * a.x) / (b.x * a.y - b.y * a.x)
    if a.x = 0 then (0, 0)
    else (n, (v.x - n * b.x) / a.x)

/-- The plane `normal ⬝ p + intercept = 0`, the embedding of class `Plane`. -/
structure Plane (α : Type) where
  normal : Vec3 α
  intercept : α
deriving DecidableEq, Repr

/-- `Plane.project_vector(point, view)`: intersect the line through `view`
and `point` with the plane.  The source computes
`t = -(A*x + B*y + C*z + D)/(A*mx + B*my + C*mz)` with `m = point - view`
and returns `point + t*m`; the division raises `ZeroDivisionError` when
the denominator is zero, embedded as `none`. -/
def Plane.project_vector? {α : Type} [Field α] [DecidableEq α]
    (pl : Plane α) (point view : Vec3 α) : Option (Vec3 α) :=
  let A := pl.normal.x
  let B := pl.normal.y
  let C := pl.normal.z
  let D := pl.intercept
  let mx := point.x - view.x
  let my := point.y - view.y
  let mz := point.z - view.z
  if A * mx + B * my + C * mz = 0 then none
  else
    let t := -(A * point.x + B * point.y + C * point.z + D) / (A * mx + B * my + C * mz)
    some ⟨point.x + t * mx, point.y + t * my, point.z + t * mz⟩

/-- `Plane.project_through(point)`: ray-projection with the synthetic ray
origin `sum_vec([point, normal])`, i.e. orthogonal projection onto the
plane. -/
def Plane.project_through? {α : Type} [Field α] [DecidableEq α]
    (pl : Plane α) (point : Vec3 α) : Option (Vec3 α) :=
  pl.project_vector? point (sum_vec [point, pl.normal])

/-- Python's built-in `round` on the exact value: round to the nearest
integer, ties to the even integer (used by `View.project_point`). -/
def pyround (q : ℚ) : ℤ :=
  if q - ⌊q⌋ < 1 / 2 then ⌊q⌋
  else if 1 / 2 < q - ⌊q⌋ then ⌊q⌋ + 1
  else if 2 ∣ ⌊q⌋ then ⌊q⌋ else ⌊q⌋ + 1

/-- The `View` state: the mutable viewpoint `point`, the owned `plane`,
and the basis pair cached by `View.__init__` (`plane.get_vectors(basis)`).
Claims about `View` methods quantify over this state. -/
structure View where
  point : Vec3 ℚ
  plane : Plane ℚ
  basis : Vec3 ℚ × Vec3 ℚ

/-- `View.project_point(point)`:
`tuple(map(round, decompose(plane.project_vector(point, self.point), self.basis)))`.
The `ZeroDivisionError` that `project_vector` can raise propagates
(embedded through `Option.map`). -/
def View.project_point (V : View) (p : Vec3 ℚ) : Option (ℤ × ℤ) :=
  (V.plane.project_vector? p V.point).map
    (fun w => (pyround (decompose w V.basis).1, pyround (decompose w V.basis).2))

/-- `View.move_point(v)`: `self.point = sum_vec([self.point, v])`; the
state after the (in Python, in-place) update. -/
def View.move_point (V : View) (v : Vec3 ℚ) : View :=
  { V with point := sum_vec [V.point, v] }

/-- Shared helper: on a basis whose x/y determinant and `a.x` are both
nonzero, `decompose` maps the combination `ca*a + cb*b` to `(cb, ca)`. -/
theorem decompose_sum_mult (a b : Vec3 ℚ) (ca cb : ℚ)
    (hdet : b.x * a.y - b.y * a.x ≠ 0) (hax : a.x ≠ 0) :
    decompose (sum_vec [mult_vec a ca, mult_vec b cb]) (a, b) = (cb, ca) := by
  unfold decompose sum_vec mult_vec
  simp only [List.map_cons, List.map_nil, List.sum_cons, List.sum_nil, add_zero]
  rw [if_neg hdet, if_neg hax]
  have h1 : (a.x * ca + b.x * cb) * a.y - (a.y * ca + b.y * cb) * a.x =
      cb * (b.x * a.y - b.y * a.x) := by ring
  rw [h1, mul_div_assoc, div_self hdet, mul_one, Prod.mk.injEq]
  refine ⟨rfl, ?_⟩
  field_simp
  ring

/-- C4: when the x/y determinant `b.x*a.y - b.y*a.x` is zero or `a.x` is
zero, `decompose` does not raise: the `except ZeroDivisionError` branch
returns `(0, 0)`. -/
theorem decompose_degenerate_returns_zero (v a b : Vec3 ℚ)
    (h : b.x * a.y - b.y * a.x = 0 ∨ a.x = 0) :
    decompose v (a, b) = (0, 0) := by
  unfold decompose
  rcases h with h | h
  · rw [if_pos h]
  · by_cases hdet : b.x * a.y - b.y * a.x = 0
    · rw [if_pos hdet]
    · rw [if_neg hdet, if_pos h]

/-- Witness for C4 at the concrete degenerate basis `a = (0,1,0)`,
`b = (0,0,1)` (x/y determinant zero and `a.x = 0`). -/
theorem decompose_degenerate_returns_zero_witness :
    decompose (⟨1, 1, 1⟩ : Vec3 ℚ) (⟨0, 1, 0⟩, ⟨0, 0, 1⟩) = (0, 0) :=
  decompose_degenerate_returns_zero ⟨1, 1, 1⟩ ⟨0, 1, 0⟩ ⟨0, 0, 1⟩ (Or.inr rfl)

/-- C9: `decompose` depends only on the x and y components of its inputs;
the z components of `v`, `a` and `b` may change arbitrarily without
changing the result. -/
theorem decompose_ignores_z (vx vy vz vz' ax ay az az' bx bY bz bz' : ℚ) :
    decompose ⟨vx, vy, vz⟩ (⟨ax, ay, az⟩, ⟨bx, bY, bz⟩) =
      decompose ⟨vx, vy, vz'⟩ (⟨ax, ay, az'⟩, ⟨bx, bY, bz'⟩) := rfl

/-- C8: `move_point(v)` replaces the viewpoint by the component-wise sum
`point + v` and leaves the plane (normal and intercept) and the cached
basis pair unchanged. -/
theorem move_point_frame (V : View) (v : Vec3 ℚ) :
    (V.move_point v).point = ⟨V.point.x + v.x, V.point.y + v.y, V.point.z + v.z⟩ ∧
      (V.move_point v).plane = V.plane ∧ (V.move_point v).basis = V.basis := by
  refine ⟨?_, rfl, rfl⟩
  simp [View.move_point, sum_vec]

/-- C7: a translation immediately undone leaves `project_point`
unchanged: `move_point(v)` then `move_point(mult_vec(v, -1))` restores
the exact original state, so every projection agrees with the original. -/
theorem project_point_translate_undone (V : View) (v p : Vec3 ℚ) :
    ((V.move_point v).move_point (mult_vec v (-1))).project_point p =
      V.project_point p := by
  have h : (V.move_point v).move_point (mult_vec v (-1)) = V := by
    cases V with
    | mk pt pl b =>
      simp only [View.move_point, mult_vec, sum_vec, List.map_cons, List.map_nil,
        List.sum_cons, List.sum_nil, add_zero]
      congr 1
      cases pt; cases v
      simp only [Vec3.mk.injEq]
      refine ⟨?_, ?_, ?_⟩ <;> ring
  rw [h]

/-- C1 counterexample: the round-trip law fails in the stated orientation.
The basis `a = (1,0,0)`, `b = (0,1,0)` is non-collinear (`cross a b ≠ 0`)
and `n*a + m*b = (1,2,0)` for `(n, m) = (1, 2)`, but `decompose` returns
`(2, 1)`, not `(1, 2)`: the coefficients come back swapped. -/
theorem decompose_roundtrip_counterexample :
    cross (⟨1, 0, 0⟩ : Vec3 ℚ) ⟨0, 1, 0⟩ ≠ ⟨0, 0, 0⟩ ∧
      sum_vec [mult_vec (⟨1, 0, 0⟩ : Vec3 ℚ) 1, mult_vec ⟨0, 1, 0⟩ 2] = ⟨1, 2, 0⟩ ∧
      decompose (⟨1, 2, 0⟩ : Vec3 ℚ) (⟨1, 0, 0⟩, ⟨0, 1, 0⟩) = (2, 1) ∧
      decompose (⟨1, 2, 0⟩ : Vec3 ℚ) (⟨1, 0, 0⟩, ⟨0, 1, 0⟩) ≠ (1, 2) := by
  refine ⟨by norm_num [cross, Vec3.mk.injEq], by norm_num [sum_vec, mult_vec, Vec3.mk.injEq],
    by norm_num [decompose, Prod.ext_iff], by norm_num [decompose, Prod.ext_iff]⟩

/-- C1 (amended): for every basis pair `(a, b)` whose x/y determinant
`b.x*a.y - b.y*a.x` is nonzero and with `a.x ≠ 0`, and all scalars
`(n, m)`, `decompose(n*a + m*b, (a, b))` returns the swapped pair
`(m, n)`. -/
theorem decompose_roundtrip_swapped (a b : Vec3 ℚ) (n m : ℚ)
    (hdet : b.x * a.y - b.y * a.x ≠ 0) (hax : a.x ≠ 0) :
    decompose (sum_vec [mult_vec a n, mult_vec b m]) (a, b) = (m, n) :=
  decompose_sum_mult a b n m hdet hax

/-- Witness for the amended C1 at `a = (1,0,0)`, `b = (0,1,0)`,
`(n, m) = (1, 2)`. -/
theorem decompose_roundtrip_swapped_witness :
    decompose (sum_vec [mult_vec (⟨1, 0, 0⟩ : Vec3 ℚ) 1, mult_vec ⟨0, 1, 0⟩ 2])
      (⟨1, 0, 0⟩, ⟨0, 1, 0⟩) = (2, 1) :=
  decompose_roundtrip_swapped ⟨1, 0, 0⟩ ⟨0, 1, 0⟩ 1 2 (by norm_num) (by norm_num)

/-- C10: on a basis with nonzero x/y determinant and `a.x ≠ 0`,
`decompose(ca*a + cb*b, (a, b)) = (cb, ca)`: the first returned scalar is
the coefficient along the second basis vector `b`, the second the
coefficient along `a`. -/
theorem decompose_coefficient_order (a b : Vec3 ℚ) (ca cb : ℚ)
    (hdet : b.x * a.y - b.y * a.x ≠ 0) (hax : a.x ≠ 0) :
    decompose (sum_vec [mult_vec a ca, mult_vec b cb]) (a, b) = (cb, ca) :=
  decompose_sum_mult a b ca cb hdet hax

/-- Witness for C10 at `a = (2,1,0)`, `b = (1,3,0)`,
`(ca, cb) = (5, 7)`: `5*a + 7*b = (17, 26, 0)` decomposes to `(7, 5)`. -/
theorem decompose_coefficient_order_witness :
    decompose (sum_vec [mult_vec (⟨2, 1, 0⟩ : Vec3 ℚ) 5, mult_vec ⟨1, 3, 0⟩ 7])
      (⟨2, 1, 0⟩, ⟨1, 3, 0⟩) = (7, 5) :=
  decompose_coefficient_order ⟨2, 1, 0⟩ ⟨1, 3, 0⟩ 5 7 (by norm_num) (by norm_num)

/-- C6: `project_vector` raises `ZeroDivisionError` (embedded: `none`)
exactly when the denominator `normal ⬝ (P - V)` is zero; on every other
input it returns a value. -/
theorem project_vector_zero_division_iff (pl : Plane ℚ) (P V : Vec3 ℚ) :
    (pl.project_vector? P V = none ↔
      pl.normal.x * (P.x - V.x) + pl.normal.y * (P.y - V.y) +
        pl.normal.z * (P.z - V.z) = 0) ∧
    (pl.normal.x * (P.x - V.x) + pl.normal.y * (P.y - V.y) +
        pl.normal.z * (P.z - V.z) ≠ 0 →
      ∃ w, pl.project_vector? P V = some w) := by
  constructor
  · by_cases hd : pl.normal.x * (P.x - V.x) + pl.normal.y * (P.y - V.y) +
        pl.normal.z * (P.z - V.z) = 0
    · simp [Plane.project_vector?, hd]
    · simp [Plane.project_vector?, hd]
  · intro h
    simp [Plane.project_vector?, h]

/-- C2: when `normal ⬝ (P - V) ≠ 0` (and the normal is nonzero),
`project_vector(P, V)` returns a point `X` on the plane
(`normal ⬝ X + intercept = 0`) of the form `X = P + t*(P - V)`. -/
theorem project_vector_intersection (pl : Plane ℚ) (P V : Vec3 ℚ)
    (hden : pl.normal.x * (P.x - V.x) + pl.normal.y * (P.y - V.y) +
      pl.normal.z * (P.z - V.z) ≠ 0)
    (_hn : pl.normal ≠ ⟨0, 0, 0⟩) :
    ∃ t X, pl.project_vector? P V = some X ∧
      pl.normal.x * X.x + pl.normal.y * X.y + pl.normal.z * X.z + pl.intercept = 0 ∧
      X.x = P.x + t * (P.x - V.x) ∧ X.y = P.y + t * (P.y - V.y) ∧
      X.z = P.z + t * (P.z - V.z) := by
  have key : pl.project_vector? P V = some
      ⟨P.x + -(pl.normal.x * P.x + pl.normal.y * P.y + pl.normal.z * P.z + pl.intercept) /
          (pl.normal.x * (P.x - V.x) + pl.normal.y * (P.y - V.y) +
            pl.normal.z * (P.z - V.z)) * (P.x - V.x),
        P.y + -(pl.normal.x * P.x + pl.normal.y * P.y + pl.normal.z * P.z + pl.intercept) /
          (pl.normal.x * (P.x - V.x) + pl.normal.y * (P.y - V.y) +
            pl.normal.z * (P.z - V.z)) * (P.y - V.y),
        P.z + -(pl.normal.x * P.x + pl.normal.y * P.y + pl.normal.z * P.z + pl.intercept) /
          (pl.normal.x * (P.x - V.x) + pl.normal.y * (P.y - V.y) +
            pl.normal.z * (P.z - V.z)) * (P.z - V.z)⟩ := by
    simp only [Plane.project_vector?]
    rw [if_neg hden]
  refine ⟨-(pl.normal.x * P.x + pl.normal.y * P.y + pl.normal.z * P.z + pl.intercept) /
      (pl.normal.x * (P.x - V.x) + pl.normal.y * (P.y - V.y) + pl.normal.z * (P.z - V.z)),
    _, key, ?_, rfl, rfl, rfl⟩
  field_simp
  ring

/-- Witness for C2 at the source's own scenario: plane `normal = (2,2,1)`,
`intercept = 0`, viewpoint `(0,0,0)`, point `(100,50,1)`
(denominator `301 ≠ 0`). -/
theorem project_vector_intersection_witness :
    ∃ t X, (⟨⟨2, 2, 1⟩, 0⟩ : Plane ℚ).project_vector? ⟨100, 50, 1⟩ ⟨0, 0, 0⟩ = some X ∧
      2 * X.x + 2 * X.y + 1 * X.z + 0 = 0 ∧
      X.x = 100 + t * (100 - 0) ∧ X.y = 50 + t * (50 - 0) ∧ X.z = 1 + t * (1 - 0) :=
  project_vector_intersection ⟨⟨2, 2, 1⟩, 0⟩ ⟨100, 50, 1⟩ ⟨0, 0, 0⟩
    (by norm_num) (by simp [Vec3.mk.injEq])

/-- Shared helper: Python's `round` is round-half-to-even: the result is
within `1/2` of the argument, and at an exact tie it is the even
integer. -/
theorem pyround_half_even (q : ℚ) :
    |q - (pyround q : ℚ)| ≤ 1 / 2 ∧ (|q - (pyround q : ℚ)| = 1 / 2 → 2 ∣ pyround q) := by
  have h0 : (0 : ℚ) ≤ q - ⌊q⌋ := sub_nonneg.mpr (Int.floor_le q)
  have h1 : q - ⌊q⌋ < 1 := by
    have := Int.lt_floor_add_one q
    linarith
  unfold pyround
  split_ifs with hlt hgt hev
  · rw [abs_of_nonneg h0]
    exact ⟨le_of_lt hlt, fun heq => absurd heq (ne_of_lt hlt)⟩
  · have hle : q - ((⌊q⌋ : ℚ) + 1) ≤ 0 := by linarith
    push_cast
    rw [abs_of_nonpos hle]
    constructor
    · linarith
    · intro heq
      linarith
  · push_neg at hlt hgt
    have htie : q - (⌊q⌋ : ℚ) = 1 / 2 := le_antisymm hgt hlt
    rw [abs_of_nonneg h0]
    exact ⟨le_of_eq htie, fun _ => hev⟩
  · push_neg at hlt hgt
    have htie : q - (⌊q⌋ : ℚ) = 1 / 2 := le_antisymm hgt hlt
    have hle : q - ((⌊q⌋ : ℚ) + 1) ≤ 0 := by linarith
    push_cast
    rw [abs_of_nonpos hle]
    constructor
    · linarith
    · intro _
      omega

/-- C5: `project_point(p)` is exactly the staged pipeline: ray-project
`p` through the viewpoint onto the plane, `decompose` the intersection in
the cached basis, and round each scalar with Python's `round`; the result
is a pair of integers.  The second conjunct pins the rounding mode:
`pyround` is round-to-nearest with ties to even. -/
theorem project_point_composition (V : View) (p w : Vec3 ℚ)
    (hw : V.plane.project_vector? p V.point = some w) :
    V.project_point p =
      some (pyround (decompose w V.basis).1, pyround (decompose w V.basis).2) ∧
    ∀ q : ℚ, |q - (pyround q : ℚ)| ≤ 1 / 2 ∧ (|q - (pyround q : ℚ)| = 1 / 2 → 2 ∣ pyround q) := by
  refine ⟨?_, fun q => pyround_half_even q⟩
  unfold View.project_point
  rw [hw]
  rfl

/-- Witness for C5 at the source's scenario: viewpoint `(0,0,0)`, plane
`normal = (2,2,1)`, `intercept = 0`, basis pair `((1,0,0),(0,1,0))`,
point `(100,50,1)`; the ray intersection is `(0,0,0)`. -/
theorem project_point_composition_witness :
    (View.mk ⟨0, 0, 0⟩ ⟨⟨2, 2, 1⟩, 0⟩ (⟨1, 0, 0⟩, ⟨0, 1, 0⟩)).project_point ⟨100, 50, 1⟩ =
      some (pyround (decompose ⟨0, 0, 0⟩ (⟨1, 0, 0⟩, ⟨0, 1, 0⟩)).1,
        pyround (decompose ⟨0, 0, 0⟩ (⟨1, 0, 0⟩, ⟨0, 1, 0⟩)).2) ∧
    ∀ q : ℚ, |q - (pyround q : ℚ)| ≤ 1 / 2 ∧ (|q - (pyround q : ℚ)| = 1 / 2 → 2 ∣ pyround q) :=
  project_point_composition (View.mk ⟨0, 0, 0⟩ ⟨⟨2, 2, 1⟩, 0⟩ (⟨1, 0, 0⟩, ⟨0, 1, 0⟩))
    ⟨100, 50, 1⟩ ⟨0, 0, 0⟩ (by norm_num [Plane.project_vector?, Vec3.mk.injEq])

section RealModel

open scoped Classical

/-- `normalize_vec(v)`: divide by the Euclidean magnitude
`sqrt(v[0]**2 + v[1]**2 + v[2]**2)`.  Python's float division raises
`ZeroDivisionError` when the magnitude is zero, embedded as `none`.
Over `ℝ` because the magnitude is a square root. -/
noncomputable def normalize_vec (v : Vec3 ℝ) : Option (Vec3 ℝ) :=
  let M := Real.sqrt (v.x ^ 2 + v.y ^ 2 + v.z ^ 2)
  if M = 0 then none else some ⟨v.x / M, v.y / M, v.z / M⟩

/-- `Plane.get_vectors(basis)`: `q = normalize_vec(project_through(basis))`,
then `r = normalize_vec((B*q.z - C*q.y, C*q.x - A*q.z, A*q.y - B*q.x))`
with `(A, B, C)` the normal's components; returns the pair `(q, r)`.
Any `ZeroDivisionError` from the two normalizations or the inner
projection propagates (embedded through `Option.bind`). -/
noncomputable def Plane.get_vectors? (pl : Plane ℝ) (basis : Vec3 ℝ) :
    Option (Vec3 ℝ × Vec3 ℝ) :=
  let A := pl.normal.x
  let B := pl.normal.y
  let C := pl.normal.z
  (pl.project_through? basis).bind fun w =>
    (normalize_vec w).bind fun q =>
      (normalize_vec ⟨B * q.z - C * q.y, C * q.x - A * q.z, A * q.y - B * q.x⟩).map
        fun r => (q, r)

/-- Helper: a nonzero vector has a nonzero sum of squared components. -/
theorem sumsq_ne_zero (v : Vec3 ℝ) (h : v ≠ ⟨0, 0, 0⟩) :
    v.x ^ 2 + v.y ^ 2 + v.z ^ 2 ≠ 0 := by
  obtain ⟨x, y, z⟩ := v
  intro h0
  apply h
  rw [Vec3.mk.injEq]
  refine ⟨?_, ?_, ?_⟩
  · have hx2 : x ^ 2 = 0 := by nlinarith [sq_nonneg x, sq_nonneg y, sq_nonneg z]
    exact pow_eq_zero_iff (two_ne_zero) |>.mp hx2
  · have hy2 : y ^ 2 = 0 := by nlinarith [sq_nonneg x, sq_nonneg y, sq_nonneg z]
    exact pow_eq_zero_iff (two_ne_zero) |>.mp hy2
  · have hz2 : z ^ 2 = 0 := by nlinarith [sq_nonneg x, sq_nonneg y, sq_nonneg z]
    exact pow_eq_zero_iff (two_ne_zero) |>.mp hz2

/-- Helper: the explicit value of the orthogonal projection
`project_through` when the normal is nonzero. -/
theorem project_through_eval (pl : Plane ℝ) (p : Vec3 ℝ)
    (hnn : pl.normal.x ^ 2 + pl.normal.y ^ 2 + pl.normal.z ^ 2 ≠ 0) :
    pl.project_through? p = some
      ⟨p.x - (pl.normal.x * p.x + pl.normal.y * p.y + pl.normal.z * p.z + pl.intercept) /
          (pl.normal.x ^ 2 + pl.normal.y ^ 2 + pl.normal.z ^ 2) * pl.normal.x,
        p.y - (pl.normal.x * p.x + pl.normal.y * p.y + pl.normal.z * p.z + pl.intercept) /
          (pl.normal.x ^ 2 + pl.normal.y ^ 2 + pl.normal.z ^ 2) * pl.normal.y,
        p.z - (pl.normal.x * p.x + pl.normal.y * p.y + pl.normal.z * p.z + pl.intercept) /
          (pl.normal.x ^ 2 + pl.normal.y ^ 2 + pl.normal.z ^ 2) * pl.normal.z⟩ := by
  simp only [Plane.project_through?, Plane.project_vector?, sum_vec, List.map_cons,
    List.map_nil, List.sum_cons, List.sum_nil, add_zero]
  split
  next h =>
    exact absurd (by linear_combination -h) hnn
  next h =>
    rw [Option.some.injEq, Vec3.mk.injEq]
    rw [show pl.normal.x * (p.x - (p.x + pl.normal.x)) +
        pl.normal.y * (p.y - (p.y + pl.normal.y)) +
        pl.normal.z * (p.z - (p.z + pl.normal.z)) =
        -(pl.normal.x ^ 2 + pl.normal.y ^ 2 + pl.normal.z ^ 2) from by ring]
    refine ⟨?_, ?_, ?_⟩ <;>
      (rw [neg_div_neg_eq]
       ring)

/-- Helper: when its argument is nonzero, `normalize_vec` succeeds and
divides each component by a positive magnitude `M` with
`M ^ 2 = v.x^2 + v.y^2 + v.z^2`. -/
theorem normalize_vec_exists (v : Vec3 ℝ) (hv : v ≠ ⟨0, 0, 0⟩) :
    ∃ q M, normalize_vec v = some q ∧ 0 < M ∧ M ^ 2 = v.x ^ 2 + v.y ^ 2 + v.z ^ 2 ∧
      q.x = v.x / M ∧ q.y = v.y / M ∧ q.z = v.z / M := by
  have h0 : 0 < v.x ^ 2 + v.y ^ 2 + v.z ^ 2 :=
    lt_of_le_of_ne (by positivity) (Ne.symm (sumsq_ne_zero v hv))
  have hM : 0 < Real.sqrt (v.x ^ 2 + v.y ^ 2 + v.z ^ 2) := Real.sqrt_pos.mpr h0
  refine ⟨⟨v.x / Real.sqrt (v.x ^ 2 + v.y ^ 2 + v.z ^ 2),
      v.y / Real.sqrt (v.x ^ 2 + v.y ^ 2 + v.z ^ 2),
      v.z / Real.sqrt (v.x ^ 2 + v.y ^ 2 + v.z ^ 2)⟩,
    Real.sqrt (v.x ^ 2 + v.y ^ 2 + v.z ^ 2), ?_, hM,
    Real.sq_sqrt (le_of_lt h0), rfl, rfl, rfl⟩
  simp only [normalize_vec]
  rw [if_neg hM.ne']

/-- Helper: for a plane through the origin (`intercept = 0`) with nonzero
normal, the orthogonal projection of a hint not parallel to the normal is
defined, orthogonal to the normal, and nonzero. -/
theorem project_through_props (pl : Plane ℝ) (hint : Vec3 ℝ)
    (hn : pl.normal ≠ ⟨0, 0, 0⟩) (hpar : cross hint pl.normal ≠ ⟨0, 0, 0⟩)
    (hD : pl.intercept = 0) :
    ∃ w, pl.project_through? hint = some w ∧ dot pl.normal w = 0 ∧ w ≠ ⟨0, 0, 0⟩ := by
  have hnn : pl.normal.x ^ 2 + pl.normal.y ^ 2 + pl.normal.z ^ 2 ≠ 0 :=
    sumsq_ne_zero pl.normal hn
  refine ⟨_, project_through_eval pl hint hnn, ?_, ?_⟩
  · unfold dot
    rw [hD]
    field_simp
    ring
  · intro h0
    apply hpar
    rw [Vec3.mk.injEq] at h0
    obtain ⟨hx, hy, hz⟩ := h0
    unfold cross
    rw [show (⟨0, 0, 0⟩ : Vec3 ℝ) = ⟨0, 0, 0⟩ from rfl, Vec3.mk.injEq]
    refine ⟨?_, ?_, ?_⟩
    · linear_combination pl.normal.z * hy - pl.normal.y * hz
    · linear_combination pl.normal.x * hz - pl.normal.z * hx
    · linear_combination pl.normal.y * hx - pl.normal.x * hy

/-- C3 (amended): for a plane **through the origin** (`intercept = 0`)
with nonzero normal and a hint not parallel to the normal,
`get_vectors(hint)` returns `(q, r)` with `q ⬝ r = 0`, `normal ⬝ q = 0`
and `normal ⬝ r = 0` — exactly, not merely to tolerance. -/
theorem get_vectors_orthogonal (pl : Plane ℝ) (hint : Vec3 ℝ)
    (hn : pl.normal ≠ ⟨0, 0, 0⟩) (hpar : cross hint pl.normal ≠ ⟨0, 0, 0⟩)
    (hD : pl.intercept = 0) :
    ∃ q r, pl.get_vectors? hint = some (q, r) ∧
      dot q r = 0 ∧ dot pl.normal q = 0 ∧ dot pl.normal r = 0 := by
  obtain ⟨w, h1, hNw, hwne⟩ := project_through_props pl hint hn hpar hD
  obtain ⟨q, M1, hq, hM1, hM1sq, hqx, hqy, hqz⟩ := normalize_vec_exists w hwne
  have hNq : dot pl.normal q = 0 := by
    unfold dot at hNw ⊢
    rw [hqx, hqy, hqz]
    rw [show pl.normal.x * (w.x / M1) + pl.normal.y * (w.y / M1) + pl.normal.z * (w.z / M1) =
      (pl.normal.x * w.x + pl.normal.y * w.y + pl.normal.z * w.z) / M1 from by ring]
    rw [hNw, zero_div]
  have hqq : q.x ^ 2 + q.y ^ 2 + q.z ^ 2 = 1 := by
    rw [hqx, hqy, hqz]
    have hww : w.x ^ 2 + w.y ^ 2 + w.z ^ 2 ≠ 0 := sumsq_ne_zero w hwne
    rw [show (w.x / M1) ^ 2 + (w.y / M1) ^ 2 + (w.z / M1) ^ 2 =
      (w.x ^ 2 + w.y ^ 2 + w.z ^ 2) / M1 ^ 2 from by ring]
    rw [hM1sq]
    exact div_self hww
  have hcc : (pl.normal.y * q.z - pl.normal.z * q.y) ^ 2 +
      (pl.normal.z * q.x - pl.normal.x * q.z) ^ 2 +
      (pl.normal.x * q.y - pl.normal.y * q.x) ^ 2 =
      (pl.normal.x ^ 2 + pl.normal.y ^ 2 + pl.normal.z ^ 2) *
        (q.x ^ 2 + q.y ^ 2 + q.z ^ 2) - (dot pl.normal q) ^ 2 := by
    unfold dot
    ring
  have hcne : (⟨pl.normal.y * q.z - pl.normal.z * q.y,
      pl.normal.z * q.x - pl.normal.x * q.z,
      pl.normal.x * q.y - pl.normal.y * q.x⟩ : Vec3 ℝ) ≠ ⟨0, 0, 0⟩ := by
    intro hc0
    rw [Vec3.mk.injEq] at hc0
    obtain ⟨h1c, h2c, h3c⟩ := hc0
    rw [h1c, h2c, h3c, hNq, hqq] at hcc
    apply sumsq_ne_zero pl.normal hn
    nlinarith [hcc]
  obtain ⟨r, M2, hr, hM2, hM2sq, hrx, hry, hrz⟩ := normalize_vec_exists _ hcne
  have hNr : dot pl.normal r = 0 := by
    unfold dot
    rw [hrx, hry, hrz]
    simp only
    rw [show pl.normal.x * ((pl.normal.y * q.z - pl.normal.z * q.y) / M2) +
        pl.normal.y * ((pl.normal.z * q.x - pl.normal.x * q.z) / M2) +
        pl.normal.z * ((pl.normal.x * q.y - pl.normal.y * q.x) / M2) = 0 / M2 from by ring]
    rw [zero_div]
  have hqr : dot q r = 0 := by
    unfold dot
    rw [hrx, hry, hrz]
    simp only
    rw [show q.x * ((pl.normal.y * q.z - pl.normal.z * q.y) / M2) +
        q.y * ((pl.normal.z * q.x - pl.normal.x * q.z) / M2) +
        q.z * ((pl.normal.x * q.y - pl.normal.y * q.x) / M2) = 0 / M2 from by ring]
    rw [zero_div]
  refine ⟨q, r, ?_, hqr, hNq, hNr⟩
  simp only [Plane.get_vectors?, h1, Option.some_bind', hq, hr, Option.map_some']

/-- Witness for the amended C3: the plane through the origin with normal
`(0,0,1)` and the hint `(1,0,0)`. -/
theorem get_vectors_orthogonal_witness :
    ∃ q r, (⟨⟨0, 0, 1⟩, 0⟩ : Plane ℝ).get_vectors? ⟨1, 0, 0⟩ = some (q, r) ∧
      dot q r = 0 ∧ dot (⟨⟨0, 0, 1⟩, 0⟩ : Plane ℝ).normal q = 0 ∧
      dot (⟨⟨0, 0, 1⟩, 0⟩ : Plane ℝ).normal r = 0 :=
  get_vectors_orthogonal ⟨⟨0, 0, 1⟩, 0⟩ ⟨1, 0, 0⟩
    (by simp [Vec3.mk.injEq]) (by norm_num [cross, Vec3.mk.injEq]) rfl

/-- C3 counterexample: for the plane `z = 1` (normal `(0,0,1)`, intercept
`-1`, a nonzero normal) and the hint `(1,0,0)` (not parallel to the
normal), `get_vectors` returns `q = (1/√2, 0, 1/√2)` and `r = (0,1,0)`,
and `normal ⬝ q = 1/√2 ≥ 1/2`: `q` is far from orthogonal to the normal
(no floating-point tolerance reading saves the claim).  The cause:
`q` normalizes a point *on* the plane, which is an in-plane direction
only when the plane passes through the origin. -/
theorem get_vectors_orthogonal_counterexample :
    (⟨0, 0, 1⟩ : Vec3 ℝ) ≠ ⟨0, 0, 0⟩ ∧
    cross (⟨1, 0, 0⟩ : Vec3 ℝ) ⟨0, 0, 1⟩ ≠ ⟨0, 0, 0⟩ ∧
    (⟨⟨0, 0, 1⟩, -1⟩ : Plane ℝ).get_vectors? ⟨1, 0, 0⟩ =
      some (⟨1 / Real.sqrt 2, 0, 1 / Real.sqrt 2⟩, ⟨0, 1, 0⟩) ∧
    dot (⟨0, 0, 1⟩ : Vec3 ℝ) ⟨1 / Real.sqrt 2, 0, 1 / Real.sqrt 2⟩ ≠ 0 ∧
    1 / 2 ≤ dot (⟨0, 0, 1⟩ : Vec3 ℝ) ⟨1 / Real.sqrt 2, 0, 1 / Real.sqrt 2⟩ := by
  have hpos : (0 : ℝ) < Real.sqrt 2 := Real.sqrt_pos.mpr (by norm_num)
  have h1 : (⟨⟨0, 0, 1⟩, -1⟩ : Plane ℝ).project_through? ⟨1, 0, 0⟩ =
      some ⟨1, 0, 1⟩ := by
    rw [project_through_eval (⟨⟨0, 0, 1⟩, -1⟩ : Plane ℝ) ⟨1, 0, 0⟩ (by norm_num)]
    norm_num [Vec3.mk.injEq]
  have hq : normalize_vec ⟨1, 0, 1⟩ = some ⟨1 / Real.sqrt 2, 0, 1 / Real.sqrt 2⟩ := by
    norm_num [normalize_vec, Real.sqrt_eq_zero', Vec3.mk.injEq]
  have hr : normalize_vec ⟨0, (Real.sqrt 2)⁻¹, 0⟩ = some ⟨0, 1, 0⟩ := by
    simp only [normalize_vec]
    rw [show ((⟨0, (Real.sqrt 2)⁻¹, 0⟩ : Vec3 ℝ).x ^ 2 +
        (⟨0, (Real.sqrt 2)⁻¹, 0⟩ : Vec3 ℝ).y ^ 2 +
        (⟨0, (Real.sqrt 2)⁻¹, 0⟩ : Vec3 ℝ).z ^ 2) = ((Real.sqrt 2)⁻¹) ^ 2 from by norm_num]
    rw [Real.sqrt_sq (by positivity)]
    rw [if_neg (by positivity)]
    have hd : (Real.sqrt 2)⁻¹ / (Real.sqrt 2)⁻¹ = 1 := div_self (by positivity)
    norm_num [Vec3.mk.injEq, hd]
  refine ⟨by simp [Vec3.mk.injEq], by norm_num [cross, Vec3.mk.injEq], ?_, ?_, ?_⟩
  · simp [Plane.get_vectors?, h1, hq, hr, Option.some_bind', Option.map_some']
  · norm_num [dot, div_eq_zero_iff, Real.sqrt_eq_zero']
  · have h2 : Real.sqrt 2 ≤ 2 := by
      nlinarith [Real.sq_sqrt (show (0 : ℝ) ≤ 2 by norm_num), Real.sqrt_nonneg 2]
    have hdot : dot (⟨0, 0, 1⟩ : Vec3 ℝ) ⟨1 / Real.sqrt 2, 0, 1 / Real.sqrt 2⟩ =
        1 / Real.sqrt 2 := by
      norm_num [dot]
    rw [hdot, div_le_div_iff₀ (by norm_num) hpos]
    linarith

end RealModel

end Projections
